import Mathlib

set_option maxRecDepth 40000

/- Shallow embedding of `src/src/irc/reply.go` (package irc): the Reply
   variants (`StringReply`, `NumericReply`, `NamesReply`), their `Format`
   operations, and the NAMES line-budget chunking algorithm.  Strings are
   modelled as Lean `String`; Go `len` on a string is its UTF-8 byte size. -/

/-- Byte length of a Go string (Go `len`), i.e. its UTF-8 byte size. -/
def strLen (s : String) : Nat := s.utf8ByteSize

/-- Go `fmt.Sprintf("%03d", n)` for a non-negative code: the decimal digits
    of `n`, zero-padded on the left to width 3. -/
def zeroPad3 (n : Nat) : String :=
  String.mk (List.replicate (3 - (Nat.repr n).length) '0') ++ Nat.repr n

/-- Modelled from the spec: the `Client` type is declared outside src/; the
    spec (§6) says the recipient context exposes the recipient's own display
    name, and `reply.go` only calls `client.Nick()` on it. -/
structure Client where
  nick : String

/-- Modelled from the spec: the `Channel` and `Server` types are declared
    outside src/; the spec (§3, §6) says a room exposes a stable identity, a
    room display name and an ordered sequence of current member display
    names.  `reply.go` reads `channel.name`, `channel.server` (an Identifier
    whose `Id()` is stamped as the source of numeric replies, held here as
    `serverId`), `channel.Nicks()` (held here as `nicks`, the encode-time
    value of that call) and the channel's own Identifier `Id()` (held here
    as `id`, the source of the end-of-names reply). -/
structure Channel where
  name : String
  serverId : String
  id : String
  nicks : List String

/-- src `NumericReply`: the source Identifier's `Id()`, the numeric code,
    and the already-formatted message. -/
structure NumericReply where
  sourceId : String
  code : Nat
  message : String

/-- src `NewNumericReply`, with the `fmt.Sprintf(format, args...)` message
    built at each call site. -/
def NewNumericReply (sourceId : String) (code : Nat) (message : String) :
    NumericReply :=
  ⟨sourceId, code, message⟩

/-- src `NumericReply.FormatString`:
    `fmt.Sprintf(":%s %03d %s %s", reply.Source().Id(), reply.code,
    client.Nick(), reply.message)`. -/
def NumericReply.FormatString (r : NumericReply) (client : Client) : String :=
  ":" ++ r.sourceId ++ " " ++ zeroPad3 r.code ++ " " ++ client.nick ++ " " ++
    r.message

/-- Modelled from the spec: the numeric-code constants are declared outside
    src/; the spec's scenario fixes the names-group code as 353. -/
def RPL_NAMREPLY : Nat := 353

/-- Modelled from the spec: declared outside src/; the end-of-enumeration
    status code (standard value 366; no claim depends on the exact value,
    only on it being a distinct three-digit code). -/
def RPL_ENDOFNAMES : Nat := 366

/-- src `RplNamReply`: `NewNumericReply(channel.server, RPL_NAMREPLY,
    "= %s :%s", channel.name, strings.Join(names, " "))`. -/
def RplNamReply (ch : Channel) (names : List String) : NumericReply :=
  NewNumericReply ch.serverId RPL_NAMREPLY
    ("= " ++ ch.name ++ " :" ++ String.intercalate " " names)

/-- src `RplEndOfNames`: `NewNumericReply(source, RPL_ENDOFNAMES,
    ":End of NAMES list")` with the channel as source. -/
def RplEndOfNames (ch : Channel) : NumericReply :=
  NewNumericReply ch.id RPL_ENDOFNAMES ":End of NAMES list"

/-- src `MAX_REPLY_LEN = 510 // 512 - CRLF`. -/
def MAX_REPLY_LEN : Int := 510

/-- src `joinedLen`: starts at `len(names) - 1` (one separator byte between
    consecutive names; `-1` for the empty list, as in Go) and adds each
    name's byte length. -/
def joinedLen (names : List String) : Int :=
  names.foldl (fun l name => l + (strLen name : Int))
    ((names.length : Int) - 1)

/-- The `baseLen` local of `NamesReply.Format`: the byte length of a names
    group line rendered for this channel and recipient with an empty member
    list. -/
def namesBaseLen (ch : Channel) (client : Client) : Nat :=
  strLen ((RplNamReply ch []).FormatString client)

/-- The `tooLong` closure of `NamesReply.Format`:
    `(baseLen + joinedLen(names)) > MAX_REPLY_LEN`. -/
def namesTooLong (baseLen : Nat) (names : List String) : Bool :=
  decide (MAX_REPLY_LEN < (baseLen : Int) + joinedLen names)

/-- Go slice `xs[a:b]`. -/
def goSlice (xs : List String) (a b : Nat) : List String :=
  (xs.drop a).take (b - a)

/-- One iteration of the chunking loop of `NamesReply.Format`, at index `i`,
    on the state `(emitted groups, start)`:
    `if (i > start) && tooLong(nicks[start:i]) { emit nicks[start:i-1];
    start = i-1 }`. -/
def namesStep (baseLen : Nat) (nicks : List String)
    (p : List (List String) × Nat) (i : Nat) : List (List String) × Nat :=
  if p.2 < i ∧ namesTooLong baseLen (goSlice nicks p.2 i) = true then
    (p.1 ++ [goSlice nicks p.2 (i - 1)], i - 1)
  else p

/-- The `for i := range nicks` loop of `NamesReply.Format`: a single pass
    over the indices `0, …, len(nicks)-1`, returning the groups emitted
    inside the loop and the final `start` cursor. -/
def namesLoop (baseLen : Nat) (nicks : List String) :
    List (List String) × Nat :=
  (List.range nicks.length).foldl (namesStep baseLen nicks) ([], 0)

/-- The member groups emitted by `NamesReply.Format`, in emission order: the
    loop's groups followed by the final flush `nicks[start:]`, which is
    emitted iff `start < (len(nicks) - 1)` (Go int comparison). -/
def namesGroups (ch : Channel) (client : Client) : List (List String) :=
  (namesLoop (namesBaseLen ch client) ch.nicks).1 ++
    (if ((namesLoop (namesBaseLen ch client) ch.nicks).2 : Int)
        < (ch.nicks.length : Int) - 1
     then [ch.nicks.drop (namesLoop (namesBaseLen ch client) ch.nicks).2]
     else [])

/-- The sequence of `NumericReply` values written by `NamesReply.Format`:
    one `RplNamReply` per emitted group, then the `RplEndOfNames`
    terminator. -/
def namesFormatReplies (ch : Channel) (client : Client) :
    List NumericReply :=
  (namesGroups ch client).map (RplNamReply ch) ++ [RplEndOfNames ch]

/-- src `NamesReply.Format`, for a given encode-time channel value: the
    lines sent to the `write` channel, in order. -/
def namesFormat (ch : Channel) (client : Client) : List String :=
  (namesFormatReplies ch client).map (fun r => r.FormatString client)

/-- src `StringReply`: its `Format` writes only the prebuilt message. -/
structure StringReply where
  message : String

/-- The `Reply` interface: the closed set of variants defined in
    `reply.go`.  A `NamesReply` holds the channel it formats. -/
inductive Reply where
  | ofString : StringReply → Reply
  | ofNumeric : NumericReply → Reply
  | ofNames : Channel → Reply

/-- The `Reply.Format` dispatch: the lines each variant writes for one
    recipient. -/
def formatReply : Reply → Client → List String
  | Reply.ofString r, _ => [r.message]
  | Reply.ofNumeric r, client => [r.FormatString client]
  | Reply.ofNames ch, client => namesFormat ch client

/-- One `Format(client, write)` invocation appending its lines to the
    recipient's output sink. -/
def formatInto (sink : List String) (r : Reply) (client : Client) :
    List String :=
  sink ++ formatReply r client

/-- src `NamesReply`: it stores a pointer to the channel (modelled as a heap
    address), not a member snapshot. -/
structure NamesReply where
  channel : Nat

/-- src `NewNamesReply`: stores only the channel reference. -/
def NewNamesReply (channelRef : Nat) : NamesReply :=
  ⟨channelRef⟩

/-- src `NamesReply.Format` against a heap: it dereferences the stored
    channel pointer at encode time (`reply.channel.Nicks()` is called inside
    `Format`), so the channel value read is the encode-time one. -/
def NamesReply.Format (r : NamesReply) (heap : Nat → Channel)
    (client : Client) : List String :=
  namesFormat (heap r.channel) client

/- Concrete inputs used by the counterexample and witness theorems. -/

/-- A recipient whose nick is one byte long. -/
def kClient : Client := ⟨"k"⟩

/-- A recipient whose nick is two bytes long. -/
def kkClient : Client := ⟨"kk"⟩

/-- A channel with the single short member "alice". -/
def aliceChannel : Channel := ⟨"#c", "s", "#c", ["alice"]⟩

/-- A 200-byte member name. -/
def longA : String := String.mk (List.replicate 200 'a')

/-- A 350-byte member name. -/
def longB : String := String.mk (List.replicate 350 'b')

/-- Two members that each fit in a group alone but not together. -/
def overflowChannel : Channel := ⟨"#c", "s", "#c", [longA, longB]⟩

/-- A 247-byte member name. -/
def fitA : String := String.mk (List.replicate 247 'a')

/-- Another 247-byte member name. -/
def fitB : String := String.mk (List.replicate 247 'b')

/-- Two members whose joined length makes the group line exactly 510
    bytes for `kClient`. -/
def fitChannel : Channel := ⟨"#c", "s", "#c", [fitA, fitB]⟩

/-- A channel with no members. -/
def emptyChannel : Channel := ⟨"#c", "s", "#c", []⟩

/-- The channel value at construction time in the snapshot scenario. -/
def consChannel : Channel := ⟨"#c", "s", "#c", ["aa", "bb"]⟩

/-- The same channel's value at encode time, after membership changed. -/
def encChannel : Channel := ⟨"#c", "s", "#c", ["cc", "dd"]⟩

/-- The heap at encode time: address 0 holds the changed channel. -/
def encHeap : Nat → Channel := fun _ => encChannel

/-- A two-member channel for the recipient-sensitivity witness. -/
def wChannel : Channel := ⟨"#c", "s", "#c", ["x", "y"]⟩

/- General lemmas about `joinedLen` and the chunking loop. -/

theorem joinedLen_foldl (l : List String) (init : Int) :
    l.foldl (fun acc name => acc + (strLen name : Int)) init
      = init + ((l.map strLen).sum : Int) := by
  induction l generalizing init with
  | nil => simp
  | cons x xs ih =>
    rw [List.foldl_cons, ih, List.map_cons, List.sum_cons]
    push_cast
    ring

theorem joinedLen_eq (l : List String) :
    joinedLen l = (l.length : Int) - 1 + ((l.map strLen).sum : Int) := by
  unfold joinedLen
  rw [joinedLen_foldl]

theorem joinedLen_take_le (l : List String) (k : Nat) :
    joinedLen (l.take k) ≤ joinedLen l := by
  rw [joinedLen_eq, joinedLen_eq]
  have h1 : (l.take k).length ≤ l.length := by
    rw [List.length_take]
    exact min_le_right _ _
  have h2 : ((l.take k).map strLen).sum ≤ (l.map strLen).sum := by
    rw [List.map_take]
    conv_rhs => rw [← List.take_append_drop k (l.map strLen)]
    rw [List.sum_append]
    exact Nat.le_add_right _ _
  omega

/-- Invariant of the chunking loop over the index range `a, …, a+b-1`: the
    emitted groups always concatenate to the prefix `nicks[0:start]` of the
    member list, and the final cursor is either the initial one or at most
    the second-to-last scanned index. -/
theorem namesLoop_inv (baseLen : Nat) (nicks : List String) :
    ∀ (b a : Nat) (acc : List (List String)) (start : Nat),
      start ≤ a → acc.flatten = nicks.take start →
      ((List.range' a b).foldl (namesStep baseLen nicks) (acc, start)).1.flatten
          = nicks.take
            ((List.range' a b).foldl (namesStep baseLen nicks) (acc, start)).2
        ∧ (((List.range' a b).foldl (namesStep baseLen nicks)
              (acc, start)).2 = start
          ∨ ((List.range' a b).foldl (namesStep baseLen nicks)
              (acc, start)).2 + 1 ≤ a + b - 1) := by
  intro b
  induction b with
  | zero =>
    intro a acc start h1 h2
    exact ⟨h2, Or.inl rfl⟩
  | succ b ih =>
    intro a acc start h1 h2
    rw [List.range'_succ, List.foldl_cons]
    by_cases hc : start < a
        ∧ namesTooLong baseLen (goSlice nicks start a) = true
    · have ha : start < a := hc.1
      have hstep : namesStep baseLen nicks (acc, start) a
          = (acc ++ [goSlice nicks start (a - 1)], a - 1) := by
        show (if start < a
              ∧ namesTooLong baseLen (goSlice nicks start a) = true
            then (acc ++ [goSlice nicks start (a - 1)], a - 1)
            else (acc, start))
          = (acc ++ [goSlice nicks start (a - 1)], a - 1)
        rw [if_pos hc]
      rw [hstep]
      have h2' : (acc ++ [goSlice nicks start (a - 1)]).flatten
          = nicks.take (a - 1) := by
        rw [List.flatten_append, h2]
        simp only [List.flatten_cons, List.flatten_nil, List.append_nil]
        show nicks.take start ++ (nicks.drop start).take (a - 1 - start)
          = nicks.take (a - 1)
        rw [← List.take_add]
        congr 1
        omega
      obtain ⟨j, d⟩ := ih (a + 1) _ (a - 1) (by omega) h2'
      refine ⟨j, Or.inr ?_⟩
      rcases d with d | d <;> omega
    · have hstep : namesStep baseLen nicks (acc, start) a = (acc, start) := by
        show (if start < a
              ∧ namesTooLong baseLen (goSlice nicks start a) = true
            then (acc ++ [goSlice nicks start (a - 1)], a - 1)
            else (acc, start))
          = (acc, start)
        rw [if_neg hc]
      rw [hstep]
      obtain ⟨j, d⟩ := ih (a + 1) acc start (by omega) h2
      refine ⟨j, ?_⟩
      rcases d with d | d
      · exact Or.inl d
      · exact Or.inr (by omega)

theorem namesLoop_spec (baseLen : Nat) (nicks : List String) :
    (namesLoop baseLen nicks).1.flatten
        = nicks.take (namesLoop baseLen nicks).2
      ∧ ((namesLoop baseLen nicks).2 = 0
        ∨ (namesLoop baseLen nicks).2 + 1 ≤ nicks.length - 1) := by
  have h := namesLoop_inv baseLen nicks nicks.length 0 [] 0
      (Nat.le_refl 0) (by simp)
  unfold namesLoop
  rw [List.range_eq_range']
  simpa using h

/-- The concatenation of all emitted member groups: the whole member list
    when it has at least two entries, and nothing otherwise (the flush guard
    `start < len(nicks)-1` skips the final group when the cursor sits on the
    last index).  The right-hand side does not depend on the recipient. -/
theorem namesGroups_flatten (ch : Channel) (client : Client) :
    (namesGroups ch client).flatten
      = if ch.nicks.length ≤ 1 then [] else ch.nicks := by
  obtain ⟨hj, hd⟩ := namesLoop_spec (namesBaseLen ch client) ch.nicks
  unfold namesGroups
  by_cases hn : ch.nicks.length ≤ 1
  · rw [if_pos hn]
    have hs0 : (namesLoop (namesBaseLen ch client) ch.nicks).2 = 0 := by
      rcases hd with hd | hd
      · exact hd
      · omega
    have hflush : ¬ (((namesLoop (namesBaseLen ch client) ch.nicks).2 : Int)
        < (ch.nicks.length : Int) - 1) := by
      rw [hs0]
      push_cast
      omega
    rw [if_neg hflush, List.append_nil, hj, hs0, List.take_zero]
  · rw [if_neg hn]
    have hflush : ((namesLoop (namesBaseLen ch client) ch.nicks).2 : Int)
        < (ch.nicks.length : Int) - 1 := by
      rcases hd with hd | hd <;> omega
    rw [if_pos hflush, List.flatten_append, hj]
    simp only [List.flatten_cons, List.flatten_nil, List.append_nil]
    exact List.take_append_drop _ _

/-- Each loop index adds at most one emitted group. -/
theorem namesLoop_length_le (baseLen : Nat) (nicks : List String) :
    ∀ (l : List Nat) (acc : List (List String)) (start : Nat),
      ((l.foldl (namesStep baseLen nicks) (acc, start)).1).length
        ≤ acc.length + l.length := by
  intro l
  induction l with
  | nil =>
    intro acc start
    simp
  | cons i l ih =>
    intro acc start
    rw [List.foldl_cons]
    by_cases hc : start < i
        ∧ namesTooLong baseLen (goSlice nicks start i) = true
    · have hstep : namesStep baseLen nicks (acc, start) i
          = (acc ++ [goSlice nicks start (i - 1)], i - 1) := by
        show (if start < i
              ∧ namesTooLong baseLen (goSlice nicks start i) = true
            then (acc ++ [goSlice nicks start (i - 1)], i - 1)
            else (acc, start))
          = (acc ++ [goSlice nicks start (i - 1)], i - 1)
        rw [if_pos hc]
      rw [hstep]
      have h := ih (acc ++ [goSlice nicks start (i - 1)]) (i - 1)
      rw [List.length_append, List.length_singleton] at h
      rw [List.length_cons]
      omega
    · have hstep : namesStep baseLen nicks (acc, start) i = (acc, start) := by
        show (if start < i
              ∧ namesTooLong baseLen (goSlice nicks start i) = true
            then (acc ++ [goSlice nicks start (i - 1)], i - 1)
            else (acc, start))
          = (acc, start)
        rw [if_neg hc]
      rw [hstep]
      have h := ih acc start
      rw [List.length_cons]
      omega

/-- If no scanned window ever exceeds the budget, the loop emits nothing and
    the cursor never moves. -/
theorem namesLoop_no_emit (baseLen : Nat) (nicks : List String) :
    ∀ (l : List Nat) (acc : List (List String)) (start : Nat),
      (∀ i ∈ l, namesTooLong baseLen (goSlice nicks start i) = false) →
      l.foldl (namesStep baseLen nicks) (acc, start) = (acc, start) := by
  intro l
  induction l with
  | nil =>
    intro acc start _
    rfl
  | cons i l ih =>
    intro acc start h
    rw [List.foldl_cons]
    have hne : ¬ (start < i
        ∧ namesTooLong baseLen (goSlice nicks start i) = true) := by
      intro hcon
      have hf := h i (List.mem_cons_self i l)
      rw [hf] at hcon
      exact Bool.false_ne_true hcon.2
    have hstep : namesStep baseLen nicks (acc, start) i = (acc, start) := by
      show (if start < i
            ∧ namesTooLong baseLen (goSlice nicks start i) = true
          then (acc ++ [goSlice nicks start (i - 1)], i - 1)
          else (acc, start))
        = (acc, start)
      rw [if_neg hne]
    rw [hstep]
    exact ih acc start (fun j hj => h j (List.mem_cons_of_mem i hj))

/-- Decimal representations of codes below 1000 take at most three
    characters. -/
theorem reprLen_le_three : ∀ n, n < 1000 → (Nat.repr n).length ≤ 3 := by
  decide

/- Claim theorems. -/

/-- C1 (code bug evaluation): the budget invariant — every line emitted by
`NamesReply.Format` is at most 510 bytes — fails on the code.  The final
flush `nicks[start:]` is emitted without a budget test, and the loop's
`tooLong` test never covers a window containing the last member, so two
members of 200 and 350 bytes, each of which fits in a group alone, are
flushed as one 566-byte group line. -/
theorem c1_budget_violation :
    namesTooLong (namesBaseLen overflowChannel kClient) [longA] = false
    ∧ namesTooLong (namesBaseLen overflowChannel kClient) [longB] = false
    ∧ (namesFormat overflowChannel kClient).any
        (fun l => decide (MAX_REPLY_LEN < (strLen l : Int))) = true := by
  decide

/-- C2 (code bug evaluation): the coverage invariant fails on the code for a
single fitting member.  With `nicks = ["alice"]` the loop never fires, the
flush guard `start < len(nicks) - 1` is `0 < 0` and skips the only group, so
the concatenation of all emitted group members is empty instead of
`["alice"]`. -/
theorem c2_coverage_violation :
    aliceChannel.nicks = ["alice"]
    ∧ namesTooLong (namesBaseLen aliceChannel kClient) ["alice"] = false
    ∧ (namesGroups aliceChannel kClient).flatten = [] := by
  decide

/-- C3 (code bug evaluation): for the single short member list `["alice"]`,
whose group line fits the budget, `NamesReply.Format` emits only the
terminator line — one line, not the two lines the spec scenario
requires. -/
theorem c3_single_member_dropped :
    namesTooLong (namesBaseLen aliceChannel kClient) ["alice"] = false
    ∧ namesFormat aliceChannel kClient
        = [(RplEndOfNames aliceChannel).FormatString kClient]
    ∧ (namesFormat aliceChannel kClient).length = 1 := by
  decide

/-- C4: exactly one terminator reply is emitted, it is always the last
line, every line before it is a names-group reply, its payload is the
fixed literal ":End of NAMES list", and for an empty member sequence
the output is exactly the terminator line. -/
theorem c4_terminator (ch : Channel) (client : Client) :
    (∃ rest, namesFormatReplies ch client = rest ++ [RplEndOfNames ch]
      ∧ ∀ r ∈ rest, r.code = RPL_NAMREPLY)
    ∧ (namesFormatReplies ch client).countP
        (fun r => r.code == RPL_ENDOFNAMES) = 1
    ∧ (RplEndOfNames ch).message = ":End of NAMES list"
    ∧ (ch.nicks = [] →
        namesFormat ch client = [(RplEndOfNames ch).FormatString client]) := by
  refine ⟨⟨(namesGroups ch client).map (RplNamReply ch), rfl, ?_⟩, ?_, rfl, ?_⟩
  · intro r hr
    obtain ⟨g, _, rfl⟩ := List.mem_map.mp hr
    rfl
  · unfold namesFormatReplies
    rw [List.countP_append]
    have h0 : List.countP (fun r => r.code == RPL_ENDOFNAMES)
        ((namesGroups ch client).map (RplNamReply ch)) = 0 := by
      rw [List.countP_eq_zero]
      intro r hr
      obtain ⟨g, _, rfl⟩ := List.mem_map.mp hr
      exact (by decide : ¬((353 : Nat) == 366) = true)
    rw [h0]
    rfl
  · intro h
    unfold namesFormat namesFormatReplies namesGroups namesLoop
    rw [h]
    simp

/-- C4 witness: the empty-room instance of the terminator theorem. -/
theorem c4_terminator_witness :
    namesFormat emptyChannel kClient
      = [(RplEndOfNames emptyChannel).FormatString kClient] :=
  (c4_terminator emptyChannel kClient).2.2.2 rfl

/-- C5 counterexample: `NamesReply` stores only a channel pointer, and
`Format` calls `channel.Nicks()` at encode time, so when membership changes
between `NewNamesReply` and `Format` the emitted lines are those of the
encode-time membership, not the construction-time one. -/
theorem c5_snapshot_counterexample :
    NamesReply.Format (NewNamesReply 0) encHeap kClient
        ≠ namesFormat consChannel kClient
    ∧ NamesReply.Format (NewNamesReply 0) encHeap kClient
        = namesFormat encChannel kClient := by
  constructor
  · decide
  · rfl

/-- C5 amended: for any construction-time and encode-time heap, even when
the referenced room's membership differs between them, the lines emitted
by `Format` are those computed from the encode-time channel value. -/
theorem c5_encode_time_membership (heapConstr heapEnc : Nat → Channel)
    (ref : Nat) (client : Client)
    (_h : (heapConstr ref).nicks ≠ (heapEnc ref).nicks) :
    NamesReply.Format (NewNamesReply ref) heapEnc client
      = namesFormat (heapEnc ref) client := rfl

/-- C5 amended witness: the concrete changed-membership scenario. -/
theorem c5_encode_time_membership_witness :
    NamesReply.Format (NewNamesReply 0) encHeap kClient
      = namesFormat (encHeap 0) kClient :=
  c5_encode_time_membership (fun _ => consChannel) encHeap 0 kClient
    (by decide)

/-- C6: for two recipients with display names of different lengths, the
in-order concatenation of the emitted group members is the same sequence —
member coverage does not depend on the recipient. -/
theorem c6_coverage_recipient_independent (ch : Channel) (cA cB : Client)
    (_h : strLen cA.nick ≠ strLen cB.nick) :
    (namesGroups ch cA).flatten = (namesGroups ch cB).flatten := by
  rw [namesGroups_flatten, namesGroups_flatten]

/-- C6 witness: recipients with 1- and 2-byte nicks over a two-member
room. -/
theorem c6_coverage_recipient_independent_witness :
    (namesGroups wChannel kClient).flatten
      = (namesGroups wChannel kkClient).flatten :=
  c6_coverage_recipient_independent wChannel kClient kkClient (by decide)

/-- C7: a window whose rendered length is at most (in particular exactly)
510 bytes never triggers a split: the loop step leaves the state unchanged
whenever `prefixLen + joinedLength ≤ 510`, and a member list whose whole
rendering exactly fits the budget is emitted as one group containing every
member, followed by the terminator. -/
theorem c7_exact_fit_included (ch : Channel) (client : Client) :
    (∀ (acc : List (List String)) (start i : Nat),
        (namesBaseLen ch client : Int)
            + joinedLen (goSlice ch.nicks start i) ≤ MAX_REPLY_LEN →
        namesStep (namesBaseLen ch client) ch.nicks (acc, start) i
          = (acc, start))
    ∧ ((namesBaseLen ch client : Int) + joinedLen ch.nicks ≤ MAX_REPLY_LEN →
        2 ≤ ch.nicks.length →
        namesFormat ch client
          = [(RplNamReply ch ch.nicks).FormatString client,
             (RplEndOfNames ch).FormatString client]) := by
  constructor
  · intro acc start i hle
    have hfalse : namesTooLong (namesBaseLen ch client)
        (goSlice ch.nicks start i) = false := by
      unfold namesTooLong
      exact decide_eq_false (not_lt.mpr hle)
    show (if start < i
          ∧ namesTooLong (namesBaseLen ch client)
              (goSlice ch.nicks start i) = true
        then (acc ++ [goSlice ch.nicks start (i - 1)], i - 1)
        else (acc, start))
      = (acc, start)
    rw [if_neg]
    intro hcon
    rw [hfalse] at hcon
    exact Bool.false_ne_true hcon.2
  · intro hfit hn
    have hloop : namesLoop (namesBaseLen ch client) ch.nicks = ([], 0) := by
      unfold namesLoop
      apply namesLoop_no_emit
      intro i _
      have hslice : goSlice ch.nicks 0 i = ch.nicks.take i := by
        simp [goSlice]
      have hle : (namesBaseLen ch client : Int)
          + joinedLen (goSlice ch.nicks 0 i) ≤ MAX_REPLY_LEN := by
        rw [hslice]
        have := joinedLen_take_le ch.nicks i
        omega
      unfold namesTooLong
      exact decide_eq_false (not_lt.mpr hle)
    have hcond : (((namesLoop (namesBaseLen ch client) ch.nicks).2 : Nat)
        : Int) < (ch.nicks.length : Int) - 1 := by
      rw [hloop]
      push_cast
      omega
    unfold namesFormat namesFormatReplies namesGroups
    rw [if_pos hcond, hloop]
    simp

/-- C7 witness: two 247-byte members whose group line is exactly 510 bytes
for a 1-byte recipient nick; both are kept in the single group. -/
theorem c7_exact_fit_included_witness :
    namesFormat fitChannel kClient
      = [(RplNamReply fitChannel fitChannel.nicks).FormatString kClient,
         (RplEndOfNames fitChannel).FormatString kClient] :=
  (c7_exact_fit_included fitChannel kClient).2 (by decide) (by decide)

/-- C8: formatting is a pure function of the reply value and the recipient
context: two successive `Format` invocations of the same reply for the same
recipient append two byte-identical line blocks to the output sink. -/
theorem c8_format_deterministic (r : Reply) (client : Client)
    (sink : List String) :
    formatInto (formatInto sink r client) r client
        = sink ++ (formatReply r client ++ formatReply r client)
    ∧ formatInto sink r client = sink ++ formatReply r client := by
  unfold formatInto
  exact ⟨List.append_assoc _ _ _, rfl⟩

/-- C9: a numeric reply with code at most 999 renders its status code as
exactly three zero-padded digits inside the rendered line; in particular
code 1 renders as "001" and code 353 as "353". -/
theorem c9_three_digit_code (r : NumericReply) (client : Client)
    (h : r.code ≤ 999) :
    (zeroPad3 r.code).length = 3
    ∧ r.FormatString client
        = ":" ++ r.sourceId ++ " " ++ zeroPad3 r.code ++ " " ++ client.nick
            ++ " " ++ r.message
    ∧ zeroPad3 1 = "001" ∧ zeroPad3 353 = "353" := by
  refine ⟨?_, rfl, by decide, by decide⟩
  have hl : (Nat.repr r.code).length ≤ 3 :=
    reprLen_le_three r.code (by omega)
  unfold zeroPad3
  rw [String.length_append]
  have hmk : (String.mk
      (List.replicate (3 - (Nat.repr r.code).length) '0')).length
      = 3 - (Nat.repr r.code).length := by
    show (List.replicate (3 - (Nat.repr r.code).length) '0').length = _
    rw [List.length_replicate]
  rw [hmk]
  omega

/-- C9 witness: the 353 instance. -/
theorem c9_three_digit_code_witness :
    (zeroPad3 (NewNumericReply "s" 353 "m").code).length = 3 :=
  (c9_three_digit_code (NewNumericReply "s" 353 "m") kClient (by decide)).1

/-- C10: `NamesReply.Format` is a single pass over the member indices: it
is total (defined for every member sequence, including individually
oversized members) and emits at least the terminator and at most one group
line per member plus one flush line plus the terminator. -/
theorem c10_single_pass_terminates (ch : Channel) (client : Client) :
    1 ≤ (namesFormat ch client).length
    ∧ (namesFormat ch client).length ≤ ch.nicks.length + 2 := by
  have hloop : (namesLoop (namesBaseLen ch client) ch.nicks).1.length
      ≤ ch.nicks.length := by
    unfold namesLoop
    have h := namesLoop_length_le (namesBaseLen ch client) ch.nicks
        (List.range ch.nicks.length) [] 0
    simpa using h
  have hite : (if ((namesLoop (namesBaseLen ch client) ch.nicks).2 : Int)
        < (ch.nicks.length : Int) - 1
      then [ch.nicks.drop (namesLoop (namesBaseLen ch client) ch.nicks).2]
      else ([] : List (List String))).length ≤ 1 := by
    split <;> simp
  unfold namesFormat namesFormatReplies namesGroups
  rw [List.length_map, List.length_append, List.length_map,
    List.length_append, List.length_singleton]
  omega
